import Mathlib

/-!
# Verification of the DSBG static-site generator core

A shallow embedding, in Lean 4, of the pure core of the DSBG ("Dead Simple
Blog Generator") pipeline: the path sanitizer (`cleanString`), the date
regex utilities (`DateTimeFromString`), the resource-filtering logic of
`CopyHtmlResources`, the cover-image rewriting step, the collection sort of
`buildWebsite`, and the RSS sort of `GenerateRSS`.

Strings are modelled as Lean `String`s (sequences of Unicode scalar
values, matching Go strings ranged over as runes); stateful filesystem
operations are modelled by returning the copy decisions / destinations that
the Go code computes lexically before performing I/O; `time.Time` values
are modelled as `Int` — the number of seconds since the Unix epoch of the
instant, computed by the same proleptic-Gregorian normalization that Go's
`time.Date` performs.
-/

set_option maxRecDepth 4000

namespace DSBG

/-! ## Character classes -/

/-- ASCII decimal digit, the `\d` class of Go's `regexp` (RE2 `\d` is
ASCII-only `[0-9]`). -/
def isDigitCh (c : Char) : Bool :=
  48 ≤ c.toNat && c.toNat ≤ 57

/-- Go `unicode.IsSpace`: the White_Space property.  All such code points
are listed explicitly. -/
def goIsSpace (c : Char) : Bool :=
  c.toNat = 9 || c.toNat = 10 || c.toNat = 11 || c.toNat = 12 ||
  c.toNat = 13 || c.toNat = 32 || c.toNat = 0x85 || c.toNat = 0xA0 ||
  c.toNat = 0x1680 ||
  (0x2000 ≤ c.toNat && c.toNat ≤ 0x200A) ||
  c.toNat = 0x2028 || c.toNat = 0x2029 ||
  c.toNat = 0x202F || c.toNat = 0x205F ||
  c.toNat = 0x3000

/-- ASCII lower-casing of one character.  Go's `strings.ToLower` performs
Unicode simple case mapping; on the ASCII prefixes tested by the code under
verification the two agree (the only non-ASCII letters whose Go lower case
is an ASCII letter are U+0130 → i and U+212A → k, and no string tested by
the code begins with i or k). -/
def lowerCh (c : Char) : Char :=
  if 65 ≤ c.toNat && c.toNat ≤ 90 then Char.ofNat (c.toNat + 32) else c

/-- ASCII lower-casing of a string (model of `strings.ToLower`). -/
def lowerStr (s : String) : String :=
  ⟨s.data.map lowerCh⟩

/-- `p` is a prefix of `s` (model of `strings.HasPrefix`). -/
def hasPfx (p s : String) : Bool :=
  p.data.isPrefixOf s.data

/-- Character allowed through the sanitizer's removal regex
`[^a-zA-Z0-9\/\\\. ]+` in `cleanString`: ASCII alphanumerics, the two path
separators, the dot and the space. -/
def allowedCh (c : Char) : Bool :=
  (97 ≤ c.toNat && c.toNat ≤ 122) ||
  (65 ≤ c.toNat && c.toNat ≤ 90) ||
  (48 ≤ c.toNat && c.toNat ≤ 57) ||
  c.toNat = 47 || c.toNat = 92 || c.toNat = 46 || c.toNat = 32

/-- The cutset `"-_ "` of the `strings.Trim` calls in `cleanString`
(dash 45, underscore 95, space 32). -/
def trimSetCh (c : Char) : Bool :=
  c.toNat = 45 || c.toNat = 95 || c.toNat = 32

/-! ## Generic list-of-characters helpers (models of `strings` functions) -/

/-- Replace every occurrence of the character `t` by the string `r`
(model of `strings.ReplaceAll` with a one-character pattern). -/
def replaceCh (t : Char) (r : List Char) : List Char → List Char
  | [] => []
  | c :: cs => (if c = t then r else [c]) ++ replaceCh t r cs

/-- Helper for `splitOnCh`: returns the piece up to the first separator
and the (recursively split) remaining pieces. -/
def splitOnChAux (sep : Char) : List Char → List Char × List (List Char)
  | [] => ([], [])
  | c :: cs =>
    if c = sep then ([], (splitOnChAux sep cs).1 :: (splitOnChAux sep cs).2)
    else (c :: (splitOnChAux sep cs).1, (splitOnChAux sep cs).2)

/-- Split on a separator character, keeping empty pieces
(model of `strings.Split` with a one-character separator; like Go's, it
returns one (empty) piece on the empty string). -/
def splitOnCh (sep : Char) (l : List Char) : List (List Char) :=
  (splitOnChAux sep l).1 :: (splitOnChAux sep l).2

/-- Join pieces with a separator string (model of `strings.Join`). -/
def joinWith (sep : List Char) : List (List Char) → List Char
  | [] => []
  | [p] => p
  | p :: ps => p ++ sep ++ joinWith sep ps

/-- Drop, from both ends, the characters satisfying `p`
(model of `strings.Trim` with cutset `p`). -/
def trimBy (p : Char → Bool) (l : List Char) : List Char :=
  ((l.dropWhile p).reverse.dropWhile p).reverse

/-- Helper for `goFields`: `acc` is the (reversed) word currently being
read. -/
def goFieldsAux : List Char → List Char → List (List Char)
  | [], acc => if acc = [] then [] else [acc.reverse]
  | c :: cs, acc =>
    if goIsSpace c then
      if acc = [] then goFieldsAux cs []
      else acc.reverse :: goFieldsAux cs []
    else goFieldsAux cs (c :: acc)

/-- Split around runs of white space, dropping empty pieces
(model of `strings.Fields`). -/
def goFields (l : List Char) : List (List Char) :=
  goFieldsAux l []

/-! ## The path sanitizer (`cleanString`, spec name `Slugify`)

Faithful to `cleanString` in the `parse` package: word-substitute `#` and
`+`, strip everything outside `[a-zA-Z0-9\/\\\. ]`, normalize backslashes,
trim each `/`-piece of `-_ `, re-split on white space and re-join the words
with single dashes, and trim dashes from the ends. -/

/-- Stages 1–4 of `cleanString`: the two `ReplaceAll` word substitutions,
the removal regex, and the backslash normalization. -/
def slugStage4 (u : List Char) : List Char :=
  ((replaceCh '+' "plus".data (replaceCh '#' "sharp".data u)).filter allowedCh).map
    (fun c => if c = '\\' then '/' else c)

/-- Stage 5: split on `/`, trim each piece of `-_ `, rejoin. -/
def slugStage5 (u : List Char) : List Char :=
  joinWith ['/'] ((splitOnCh '/' (slugStage4 u)).map (trimBy trimSetCh))

/-- The sanitizer on lists of characters; stage for stage the body of the
Go function `cleanString` (stages 6–8: `Fields`, trim, dash join, final
dash trim). -/
def cleanStringL (u : List Char) : List Char :=
  trimBy (fun c => c = '-')
    (joinWith ['-'] ((goFields (slugStage5 u)).map (trimBy trimSetCh)))

/-- `cleanString` of the source (the spec's `Slugify`). -/
def cleanString (s : String) : String :=
  ⟨cleanStringL s.data⟩

example : cleanString "a b" = "a-b" := by decide
example : cleanString "a-b" = "ab" := by decide
example : cleanString "C# and C++" = "Csharp-and-Cplusplus" := by decide
example : cleanString "out\\a-b\\index.html" = "out/ab/index.html" := by decide
example : cleanString "" = "" := by decide

/-! ## Date extraction (`regexPatterns`, `DateTimeFromString`)

The three patterns of `regexPatterns` are

  1. `(?P<year>\d{4})\D+(?P<month>\d{1,2})\D+(?P<day>\d{1,2})`
  2. `(?P<day>\d{1,2})\D+(?P<month>\d{1,2})\D+(?P<year>\d{4})`
  3. `(?P<hour>\d{2}):(?P<min>\d{2}):(?P<sec>\d{2})`

`FindStringSubmatch` finds the leftmost match, using backtracking-first
(leftmost-first) semantics at the match's starting position.  For these
patterns that search is deterministic: the attempt at a fixed starting
position can be written without any residual backtracking, because a
shortened greedy `\D+` or `\d{1,2}` group always leaves the wrong class of
character in front of the next group.  The matchers below implement that
attempt at each position and scan the positions left to right. -/

/-- Decimal value of a digit string (the captures are 1–4 digits long, so
Go's `strconv.Atoi` on them never fails and never overflows `int`). -/
def digitsVal (l : List Char) : Nat :=
  l.foldl (fun a c => 10 * a + (c.toNat - 48)) 0

/-- One attempt of pattern 1 (`year`, `month`, `day`) at a fixed starting
position. -/
def matchDate1At (l : List Char) : Option (Nat × Nat × Nat) :=
  match l with
  | c1 :: c2 :: c3 :: c4 :: rest =>
    if isDigitCh c1 && isDigitCh c2 && isDigitCh c3 && isDigitCh c4 then
      match rest with
      | [] => none
      | r :: _ =>
        if isDigitCh r then none
        else
          -- the first `\D+` must reach the next digit
          let after1 := rest.dropWhile (fun c => !isDigitCh c)
          let run1 := after1.takeWhile isDigitCh
          if run1.length = 0 || 2 < run1.length then none
          else
            let rest2 := after1.drop run1.length
            match rest2 with
            | [] => none
            | _ :: _ =>
              let after2 := rest2.dropWhile (fun c => !isDigitCh c)
              let run2 := after2.takeWhile isDigitCh
              if run2.length = 0 then none
              else some (digitsVal [c1, c2, c3, c4], digitsVal run1, digitsVal (run2.take 2))
    else none
  | _ => none

/-- One attempt of pattern 2 (`day`, `month`, `year`) at a fixed starting
position. -/
def matchDate2At (l : List Char) : Option (Nat × Nat × Nat) :=
  let run0 := l.takeWhile isDigitCh
  if run0.length = 0 || 2 < run0.length then none
  else
    match l.drop run0.length with
    | [] => none
    | rest =>
      let after1 := rest.dropWhile (fun c => !isDigitCh c)
      let run1 := after1.takeWhile isDigitCh
      if run1.length = 0 || 2 < run1.length then none
      else
        let rest2 := after1.drop run1.length
        match rest2 with
        | [] => none
        | _ :: _ =>
          let after2 := rest2.dropWhile (fun c => !isDigitCh c)
          let run2 := after2.takeWhile isDigitCh
          if run2.length < 4 then none
          else some (digitsVal run0, digitsVal run1, digitsVal (run2.take 4))

/-- One attempt of pattern 3 (`hour`, `min`, `sec`) at a fixed starting
position. -/
def matchTimeAt (l : List Char) : Option (Nat × Nat × Nat) :=
  match l with
  | a :: b :: k1 :: c :: d :: k2 :: e :: f :: _ =>
    if isDigitCh a && isDigitCh b && k1 = ':' && isDigitCh c && isDigitCh d &&
       k2 = ':' && isDigitCh e && isDigitCh f then
      some (digitsVal [a, b], digitsVal [c, d], digitsVal [e, f])
    else none
  | _ => none

/-- Scan the starting positions left to right (the leftmost-match rule of
`FindStringSubmatch`). -/
def scanFind (f : List Char → Option (Nat × Nat × Nat)) : List Char → Option (Nat × Nat × Nat)
  | [] => f []
  | c :: cs =>
    match f (c :: cs) with
    | some r => some r
    | none => scanFind f cs

/-- Leftmost match of pattern 1, as `(year, month, day)` values. -/
def findDate1 (l : List Char) : Option (Nat × Nat × Nat) :=
  scanFind matchDate1At l

/-- Leftmost match of pattern 2, as `(day, month, year)` values. -/
def findDate2 (l : List Char) : Option (Nat × Nat × Nat) :=
  scanFind matchDate2At l

/-- Leftmost match of pattern 3, as `(hour, min, sec)` values. -/
def findTime (l : List Char) : Option (Nat × Nat × Nat) :=
  scanFind matchTimeAt l

example : findDate1 "1999-12-31 23:59:58".data = some (1999, 12, 31) := by decide
example : findDate2 "31-12-1999".data = some (31, 12, 1999) := by decide
example : findDate2 "1999-12-31".data = none := by decide
example : findTime "x 123:45:67".data = some (23, 45, 67) := by decide
example : findDate1 "12345x6x7".data = some (2345, 6, 7) := by decide
example : findDate1 "1999-123-45".data = none := by decide

/-! ## `time.Date` as an instant

Go's `time.Date(year, month, day, hour, min, sec, 0, time.UTC)` accepts
values outside their usual ranges and normalizes: months are carried into
the year, and the day, hour, minute and second arguments are added
linearly.  `goTimeDate` returns the Unix-seconds instant so constructed
(proleptic Gregorian calendar, as Go uses). -/

/-- Days from the Unix epoch to `year-month-01` for `month ∈ [1,12]`
(proleptic Gregorian; the standard civil-from-days formula). -/
def daysFromCivilM1 (year month : Int) : Int :=
  let y := year - (if month ≤ 2 then 1 else 0)
  let era := Int.fdiv y 400
  let yoe := y - era * 400
  let mp := if 2 < month then month - 3 else month + 9
  let doy := Int.fdiv (153 * mp + 2) 5
  let doe := yoe * 365 + Int.fdiv yoe 4 - Int.fdiv yoe 100 + doy
  era * 146097 + doe - 719468

/-- The instant (Unix seconds) built by
`time.Date(year, month, day, hour, min, sec, 0, time.UTC)`. -/
def goTimeDate (year month day hour minute sec : Int) : Int :=
  let m0 := month - 1
  let y := year + Int.fdiv m0 12
  let m := Int.fmod m0 12 + 1
  (daysFromCivilM1 y m + (day - 1)) * 86400 + hour * 3600 + minute * 60 + sec

example : goTimeDate 1970 1 1 0 0 0 = 0 := by decide
example : goTimeDate 2000 3 1 0 0 0 = 951868800 := by decide
example : goTimeDate 2000 2 29 0 0 0 = 951782400 := by decide
example : goTimeDate 1969 12 31 23 59 59 = -1 := by decide
-- month/day normalization: Date(2000, 13, 1) = Date(2001, 1, 1), Date(2000, 1, 0) = Date(1999, 12, 31)
example : goTimeDate 2000 13 1 0 0 0 = goTimeDate 2001 1 1 0 0 0 := by decide
example : goTimeDate 2000 1 0 0 0 0 = goTimeDate 1999 12 31 0 0 0 := by decide

/-- The zero `time.Time` (January 1, year 1, 00:00:00 UTC) as an instant:
what `Time.IsZero` tests. -/
def timeZeroInstant : Int := goTimeDate 1 1 1 0 0 0

/-! ## `DateTimeFromString`

The Go function iterates over the three patterns; for each pattern that
matches it stores every named group's integer value into one shared map
`m`, so a later pattern overwrites an earlier one field by field.  If no
pattern matched it returns the `no date information found` error (modelled
as `none`); the `strconv.Atoi` failure branch is unreachable because every
capture is a non-empty string of at most four ASCII digits. -/

/-- The named capture groups. -/
inductive DField where
  | year | month | day | hour | minute | sec
deriving DecidableEq

/-- The named groups, in order, that each pattern contributes when it
matches (`SubexpNames`). -/
def groupsOf1 (l : List Char) : Option (List (DField × Nat)) :=
  (findDate1 l).map fun r => [(.year, r.1), (.month, r.2.1), (.day, r.2.2)]

/-- Pattern 2's groups. -/
def groupsOf2 (l : List Char) : Option (List (DField × Nat)) :=
  (findDate2 l).map fun r => [(.day, r.1), (.month, r.2.1), (.year, r.2.2)]

/-- Pattern 3's groups. -/
def groupsOf3 (l : List Char) : Option (List (DField × Nat)) :=
  (findTime l).map fun r => [(.hour, r.1), (.minute, r.2.1), (.sec, r.2.2)]

/-- Read a field from the map, defaulting to zero like Go's
`m["year"]` on a `map[string]int`. -/
def dfGet (m : List (DField × Nat)) (k : DField) : Nat :=
  match m.find? (fun kv => kv.1 = k) with
  | some kv => kv.2
  | none => 0

/-- `DateTimeFromString`: `none` models the `NoDateFound` error. -/
def DateTimeFromString (s : String) : Option Int :=
  let rs := [groupsOf1 s.data, groupsOf2 s.data, groupsOf3 s.data]
  let m := rs.foldl (fun m r =>
    match r with
    | some g => g.foldl (fun m kv => kv :: m) m
    | none => m) []
  if rs.all Option.isNone then none
  else some (goTimeDate (dfGet m .year) (dfGet m .month) (dfGet m .day)
    (dfGet m .hour) (dfGet m .minute) (dfGet m .sec))

example : DateTimeFromString "1999-12-31" = some (goTimeDate 1999 12 31 0 0 0) := by decide
example : DateTimeFromString "31/12/1999" = some (goTimeDate 1999 12 31 0 0 0) := by decide
example : DateTimeFromString "at 23:59:58" = some (goTimeDate 0 0 0 23 59 58) := by decide
example : DateTimeFromString "no digits here" = none := by decide
-- pattern 2 overwrites pattern 1 field by field, pattern 3 adds the time fields
example : DateTimeFromString "31-12-1999 23:59:58" = some (goTimeDate 1999 12 31 23 59 58) := by
  decide

/-! ## Lexical path functions (`path/filepath` on a Unix separator)

On the build platform the separator is `/`, so `filepath.Clean`, `Join`,
`Dir`, `Ext` and `ToSlash` coincide with the slash-based `path`
functions modelled here. -/

/-- Model of `filepath.Clean` (Plan 9 lexical cleaning): drop empty and
`.` elements, resolve `..` against a stack, keep leading `..`s of a
relative path, drop them at the root. -/
def goClean (p : String) : String :=
  if p.data = [] then "."
  else
    let rooted := p.data.head? = some '/'
    let parts := splitOnCh '/' p.data
    let out := (parts.foldl (fun acc e =>
      if e = [] || e = ['.'] then acc
      else if e = ['.', '.'] then
        match acc with
        | [] => if rooted then [] else [['.', '.']]
        | top :: rest => if top = ['.', '.'] then e :: acc else rest
      else e :: acc) ([] : List (List Char))).reverse
    let res := (if rooted then ['/'] else []) ++ joinWith ['/'] out
    if res = [] then "." else ⟨res⟩

example : goClean "a//b/./c/" = "a/b/c" := by decide
example : goClean "a/b/../../../c" = "../c" := by decide
example : goClean "/../a" = "/a" := by decide
example : goClean "" = "." := by decide

/-- Model of `filepath.Join` for two elements: empty elements are dropped,
the rest joined with `/` and cleaned; all-empty input gives `""`. -/
def goJoin (a b : String) : String :=
  if a = "" && b = "" then ""
  else if a = "" then goClean b
  else if b = "" then goClean a
  else goClean ⟨a.data ++ '/' :: b.data⟩

/-- Model of `filepath.Dir`: everything up to and including the final
separator, cleaned (`.` when there is no separator). -/
def goDir (p : String) : String :=
  goClean ⟨(p.data.reverse.dropWhile (fun c => c != '/')).reverse⟩

example : goDir "posts/p/index.html" = "posts/p" := by decide
example : goDir "index.html" = "." := by decide

/-- Model of `filepath.Ext`: the suffix beginning at the final dot in the
final element, `""` when that element has no dot. -/
def goExt (p : String) : String :=
  let seg := p.data.reverse.takeWhile (fun c => c != '/')
  let pre := seg.takeWhile (fun c => c != '.')
  if pre.length = seg.length then "" else ⟨'.' :: pre.reverse⟩

example : goExt "img/x.png" = ".png" := by decide
example : goExt "a.b/c" = "" := by decide
example : goExt "about" = "" := by decide

/-- `filepath.ToSlash` is the identity on a platform whose separator is
already `/`. -/
def toSlash (s : String) : String := s

/-- Model of `strings.TrimSpace`. -/
def goTrimSpace (s : String) : String :=
  ⟨trimBy goIsSpace s.data⟩

/-! ## `net/url.Parse`, restricted to the `Path` field

`CopyHtmlResources` uses `url.Parse(ref)` only through `u.Path` and the
error.  The model below reproduces `Parse` for that projection: the
fragment is cut at the first `#`, a scheme (a letter followed by
letters/digits/`+`/`-`/`.` up to a `:`) is removed, the query is cut at
the first `?`, an opaque (non-`/`-rooted) rest after a scheme gives an
empty path, a `//` prefix consumes the authority up to the next `/`, and a
leading `:` or a colon inside the first segment of a scheme-less relative
reference is a parse error (`none`).  Percent-decoding of the path and its
error cases are not modelled — no claim involves `%` escapes. -/

/-- A character Go's `getScheme` accepts after the first one
(letters, digits, `+` 43, `-` 45, `.` 46). -/
def isSchemeCh (c : Char) : Bool :=
  (97 ≤ c.toNat && c.toNat ≤ 122) ||
  (65 ≤ c.toNat && c.toNat ≤ 90) ||
  (48 ≤ c.toNat && c.toNat ≤ 57) ||
  c.toNat = 43 || c.toNat = 45 || c.toNat = 46

/-- An ASCII letter. -/
def isAlphaCh (c : Char) : Bool :=
  (97 ≤ c.toNat && c.toNat ≤ 122) ||
  (65 ≤ c.toNat && c.toNat ≤ 90)

/-- `url.Parse(s).Path`, with `none` for a parse error. -/
def goUrlPath (s : String) : Option String :=
  let l := s.data.takeWhile (fun c => c != '#')
  match l.head? with
  | none => some ""
  | some c0 =>
    if c0 = ':' then none
    else
      let sch := l.takeWhile isSchemeCh
      let hasScheme := isAlphaCh c0 && (l.drop sch.length).head? = some ':'
      let rest := if hasScheme then (l.drop sch.length).tail else l
      let rest := rest.takeWhile (fun c => c != '?')
      match rest with
      | '/' :: '/' :: r =>
        -- a scheme-less reference beginning with three slashes keeps its
        -- whole path (`Parse` only consumes an authority when a scheme is
        -- present or the reference does not start with three slashes)
        if !hasScheme && r.head? = some '/' then some ⟨rest⟩
        else
          let auth := r.takeWhile (fun c => c != '/')
          some ⟨r.drop auth.length⟩
      | '/' :: _ => some ⟨rest⟩
      | _ =>
        if hasScheme then some ""
        else if (rest.takeWhile (fun c => c != '/')).contains ':' then none
        else some ⟨rest⟩

example : goUrlPath "img/x.png?v=1#top" = some "img/x.png" := by decide
example : goUrlPath "mailto:a@b.c" = some "" := by decide
example : goUrlPath "https://example.com/x.png" = some "/x.png" := by decide
example : goUrlPath "#section" = some "" := by decide
example : goUrlPath "/img/x.png" = some "/img/x.png" := by decide

/-! ## The selective resource copy of `CopyHtmlResources`

For each raw reference the loop body computes, purely lexically, whether
the reference is copied and to which relative path; the filesystem reads
and writes themselves are abstracted.  `cleanedResourcePath` is the value
of the Go variable `cleanPath` right before the extension checks (`none`
when an earlier step `continue`d); `copyDecision` adds the extension
checks; `resourceDest` is the copy destination `filepath.Join
(outputDirectory, cleanPath)`. -/

/-- Stages 0–2 of the loop body: trim, skip empty, skip absolute external
URLs, skip non-resource schemes, take the URL path, treat a leading `/` as
site-root-relative. -/
def cleanedResourcePath (ref : String) : Option String :=
  let r := goTrimSpace ref
  if r = "" then none
  else
    let low := lowerStr r
    if hasPfx "http://" low || hasPfx "https://" low ||
       hasPfx "ftp://" low || hasPfx "//" low then none
    else if hasPfx "#" low || hasPfx "mailto:" low || hasPfx "tel:" low ||
       hasPfx "sms:" low || hasPfx "www." low then none
    else
      let cp := match goUrlPath r with
        | some p => if p = "" then none else some p
        | none => some r
      match cp with
      | none => none
      | some p =>
        let q := if hasPfx "/" p then (⟨p.data.tail⟩ : String) else p
        if q = "" then none else some q

/-- Stages 3–4 and the result: skip content-file extensions, skip
extensionless references, otherwise copy `cleanPath`. -/
def copyDecision (ref : String) : Option String :=
  match cleanedResourcePath ref with
  | none => none
  | some p =>
    let ext := lowerStr (goExt p)
    if ext = ".md" || ext = ".markdown" || ext = ".html" || ext = ".htm" then none
    else if ext = "" then none
    else some p

/-- Destination of a copied resource. -/
def resourceDest (outputDirectory ref : String) : Option String :=
  (copyDecision ref).map (goJoin outputDirectory)

example : copyDecision "img/x.png" = some "img/x.png" := by decide
example : copyDecision "https://example.com/x.png" = none := by decide
example : copyDecision "#section" = none := by decide
example : copyDecision "about" = none := by decide
example : copyDecision "notes.md" = none := by decide
example : copyDecision "/img/x.png?v=1#top" = some "img/x.png" := by decide

/-! ## The cover-image step of `CopyHtmlResources`

Lines 332–363 of the resolver: when a cover image is set and its
lower-cased value does not start with `"http"`, the file is copied from
the article's source directory to its output directory (unless the whole
directory was already copied in HTML-`PAGE` mode), and the stored value is
replaced by `filepath.Dir(article.LinkToSelf)` joined with the original
reference. -/

/-- Result of the cover-image step: the copies performed (source,
destination) and the final stored cover value. -/
structure CoverResult where
  copies : List (String × String)
  cover : String
deriving DecidableEq

/-- The cover-image step as a function of the directories, the article's
`LinkToSelf` and original cover value, and whether the article is an HTML
`PAGE`. -/
def coverImageStep (originalDirectory outputDirectory linkToSelf coverImage : String)
    (isHtmlPage : Bool) : CoverResult :=
  if coverImage = "" || hasPfx "http" (lowerStr coverImage) then
    ⟨[], coverImage⟩
  else
    let copies :=
      if isHtmlPage then []
      else [(goJoin originalDirectory coverImage, goJoin outputDirectory coverImage)]
    ⟨copies, toSlash (goJoin (goDir linkToSelf) coverImage)⟩

example :
    coverImageStep "content/posts/p" "out/posts/p" "posts/p/index.html" "img/c.png" false =
      ⟨[("content/posts/p/img/c.png", "out/posts/p/img/c.png")], "posts/p/img/c.png"⟩ := by
  decide

/-! ## The data model (`models.go`) -/

/-- `Article` of `parse/models.go`; the two `time.Time` fields are
instants (Unix seconds). -/
structure Article where
  Title : String := ""
  Description : String := ""
  CoverImage : String := ""
  Created : Int := 0
  Updated : Int := 0
  Tags : List String := []
  TextContent : String := ""
  HtmlContent : String := ""
  OriginalPath : String := ""
  LinkToSelf : String := ""
  LinkToSave : String := ""
  ShareUrl : String := ""
  CanonicalUrl : String := ""
deriving DecidableEq

/-- The closed `SortOrder` enumeration (`ParseSortOrder` admits exactly
these eight values). -/
inductive SortOrder where
  | dateCreated | reverseDateCreated | dateUpdated | reverseDateUpdated
  | title | reverseTitle | path | reversePath
deriving DecidableEq

/-! ## The collection sort of `buildWebsite`

`buildWebsite` sorts the collected articles with `sort.Slice` and one
comparator per `SortOrder` (`lessOf` below is the respective closure).
`sort.Slice` is an unstable comparison sort; its output is some
permutation of the input that is sorted with respect to the `less`
function, i.e. sorted for the relation `fun a b => lessOf s b a = false`.
The model fixes insertion sort as the sorting algorithm; whenever the
comparator is a strict total order on the elements at hand (as in every
claim below, where sort keys are pairwise distinct) that choice is
irrelevant, because the sorted permutation is then unique. -/

/-- Go's `<` on strings: lexicographic on the UTF-8 bytes, which on valid
UTF-8 is lexicographic on the code points. -/
def goStrLt (a b : String) : Bool :=
  go a.data b.data
where
  go : List Char → List Char → Bool
    | [], [] => false
    | [], _ :: _ => true
    | _ :: _, [] => false
    | c :: cs, d :: ds =>
      if c.toNat < d.toNat then true
      else if d.toNat < c.toNat then false
      else go cs ds

/-- The eight comparator closures of the `switch settings.Sort` in
`buildWebsite` (`Time.After`/`Time.Before` are `>`/`<` on instants). -/
def lessOf : SortOrder → Article → Article → Bool
  | .dateCreated, a, b => decide (b.Created < a.Created)
  | .reverseDateCreated, a, b => decide (a.Created < b.Created)
  | .dateUpdated, a, b => decide (b.Updated < a.Updated)
  | .reverseDateUpdated, a, b => decide (a.Updated < b.Updated)
  | .title, a, b => goStrLt a.Title b.Title
  | .reverseTitle, a, b => goStrLt b.Title a.Title
  | .path, a, b => goStrLt a.OriginalPath b.OriginalPath
  | .reversePath, a, b => goStrLt b.OriginalPath a.OriginalPath

/-- The collection sort (step 7 of the orchestrator). -/
def sortArticles (s : SortOrder) (l : List Article) : List Article :=
  List.insertionSort (fun a b => lessOf s b a = false) l

/-! ## The RSS sort (`GenerateRSS`)

`GenerateRSS` begins with
`slices.SortFunc(articles, func(a, b) int { return b.Created.Compare(a.Created) })`,
sorting the slice it was handed — the orchestrator's own collection — in
place into descending creation order, and then renders the feed items in
that order. -/

/-- `Time.Compare` on instants. -/
def goCompare (x y : Int) : Int :=
  if x < y then -1 else if y < x then 1 else 0

/-- The in-place sort performed by `GenerateRSS` on the collection it is
given, modelled as the sorted value of that collection
(`slices.SortFunc` sorts ascending with respect to `cmp`, i.e. for the
relation `cmp a b ≤ 0`). -/
def rssSort (l : List Article) : List Article :=
  List.insertionSort (fun a b => goCompare b.Created a.Created ≤ 0) l

/-- The shared article collection as the orchestrator passes it to the
index generator: sorted by the configured `SortOrder` (step 7, then step
9's `GenerateHtmlIndex`). -/
def articlesAfterIndex (s : SortOrder) (l : List Article) : List Article :=
  sortArticles s l

/-- The same shared collection right after `GenerateRSS` returned:
`GenerateRSS` re-sorted the slice in place. -/
def articlesAfterRSS (s : SortOrder) (l : List Article) : List Article :=
  rssSort (articlesAfterIndex s l)

/-! ## The creation-date fallback chain of `MarkdownFile`

Lines 123–191 of the Markdown parser: a frontmatter `created` value that
is a string is parsed with `DateTimeFromString` (a failure is logged and
leaves the field alone), a pre-typed timestamp is used directly; when the
resulting `article.Created` is still the zero `time.Time`, a date parsed
out of the file path is used, and failing that the file's modification
time. -/

/-- A frontmatter `created` value: a string, or a pre-typed timestamp. -/
inductive FMDate where
  | str (s : String)
  | time (t : Int)

/-- The `Created` field of the article produced by `MarkdownFile`, as a
function of the frontmatter `created` value, the file path and the file's
modification time. -/
def derivedCreated (fm : Option FMDate) (path : String) (mtime : Int) : Int :=
  let c :=
    match fm with
    | some (.str s) =>
      match DateTimeFromString s with
      | some t => t
      | none => timeZeroInstant
    | some (.time t) => t
    | none => timeZeroInstant
  if c = timeZeroInstant then
    match DateTimeFromString path with
    | some t => t
    | none => mtime
  else c

example : derivedCreated (some (.str "2024-01-02")) "p.md" 7 = goTimeDate 2024 1 2 0 0 0 := by
  decide
example : derivedCreated none "posts/2024-01-02-x.md" 7 = goTimeDate 2024 1 2 0 0 0 := by decide
example : derivedCreated none "posts/x.md" 7 = 7 := by decide

/-! ## Generic lemmas about permutations of short lists -/

/-- A permutation of a two-element list is one of its two arrangements. -/
theorem perm_pair_cases {α : Type _} {x y a b : α} (h : [x, y].Perm [a, b]) :
    (x = a ∧ y = b) ∨ (x = b ∧ y = a) := by
  have hx : x ∈ [a, b] := h.mem_iff.mp (by simp)
  rcases List.mem_pair.mp hx with hxa | hxb
  · refine Or.inl ⟨hxa, ?_⟩
    have h2 : [y].Perm [b] := by rw [hxa] at h; exact h.cons_inv
    simpa using List.perm_singleton.mp h2
  · refine Or.inr ⟨hxb, ?_⟩
    have hswap : [a, b].Perm [b, a] := List.Perm.swap b a []
    have h2 : [y].Perm [a] := by rw [hxb] at h; exact (h.trans hswap).cons_inv
    simpa using List.perm_singleton.mp h2

/-- A permutation of a three-element list is one of its six
arrangements. -/
theorem perm3_cases {α : Type _} {x y z : α} {l : List α} (h : l.Perm [x, y, z]) :
    l = [x, y, z] ∨ l = [x, z, y] ∨ l = [y, x, z] ∨ l = [y, z, x] ∨
    l = [z, x, y] ∨ l = [z, y, x] := by
  have hlen : l.length = 3 := by simpa using h.length_eq
  match l, hlen, h with
  | [p, q, r], _, h =>
    have hp : p ∈ [x, y, z] := h.mem_iff.mp (by simp)
    rcases List.mem_cons.mp hp with hpx | hp'
    · have h2 : [q, r].Perm [y, z] := by rw [hpx] at h; exact h.cons_inv
      rcases perm_pair_cases h2 with ⟨e1, e2⟩ | ⟨e1, e2⟩
      · exact Or.inl (by rw [hpx, e1, e2])
      · exact Or.inr (Or.inl (by rw [hpx, e1, e2]))
    · rcases List.mem_pair.mp hp' with hpy | hpz
      · have hswap : [x, y, z].Perm (y :: [x, z]) := List.Perm.swap y x [z]
        have h2 : [q, r].Perm [x, z] := by rw [hpy] at h; exact (h.trans hswap).cons_inv
        rcases perm_pair_cases h2 with ⟨e1, e2⟩ | ⟨e1, e2⟩
        · exact Or.inr (Or.inr (Or.inl (by rw [hpy, e1, e2])))
        · exact Or.inr (Or.inr (Or.inr (Or.inl (by rw [hpy, e1, e2]))))
      · have hswap : [x, y, z].Perm (z :: [x, y]) :=
          ((List.Perm.swap z y []).cons x).trans (List.Perm.swap z x [y])
        have h2 : [q, r].Perm [x, y] := by rw [hpz] at h; exact (h.trans hswap).cons_inv
        rcases perm_pair_cases h2 with ⟨e1, e2⟩ | ⟨e1, e2⟩
        · exact Or.inr (Or.inr (Or.inr (Or.inr (Or.inl (by rw [hpz, e1, e2])))))
        · exact Or.inr (Or.inr (Or.inr (Or.inr (Or.inr (by rw [hpz, e1, e2])))))

/-- A list that is sorted for a relation reflecting `≤` on an integer key
and is a permutation of three elements with strictly increasing keys is
exactly that sorted arrangement. -/
theorem sorted_perm3_eq {r : Article → Article → Prop} (key : Article → Int)
    (hr : ∀ a b, r a b ↔ key a ≤ key b) {a1 a2 a3 : Article} {m : List Article}
    (h12 : key a1 < key a2) (h23 : key a2 < key a3)
    (hm : m.Perm [a1, a2, a3]) (hs : m.Sorted r) : m = [a1, a2, a3] := by
  rcases perm3_cases hm with e | e | e | e | e | e <;> subst e
  · rfl
  · have hc : key a3 ≤ key a2 :=
      (hr a3 a2).mp (List.rel_of_sorted_cons hs.tail a2 (by simp))
    omega
  · have hc : key a2 ≤ key a1 :=
      (hr a2 a1).mp (List.rel_of_sorted_cons hs a1 (by simp))
    omega
  · have hc : key a2 ≤ key a1 :=
      (hr a2 a1).mp (List.rel_of_sorted_cons hs a1 (by simp))
    omega
  · have hc : key a3 ≤ key a1 :=
      (hr a3 a1).mp (List.rel_of_sorted_cons hs a1 (by simp))
    omega
  · have hc : key a3 ≤ key a2 :=
      (hr a3 a2).mp (List.rel_of_sorted_cons hs a2 (by simp))
    omega

/-! ## Facts about the two sorts shared by the sorting claims -/

/-- The comparator relation used by `sortArticles .reverseDateCreated`
reflects ascending creation instants. -/
theorem rel_reverseDateCreated (a b : Article) :
    (lessOf .reverseDateCreated b a = false) ↔ a.Created ≤ b.Created := by
  simp [lessOf, decide_eq_false_iff_not]

/-- The comparator relation used by `sortArticles .dateCreated` reflects
descending creation instants. -/
theorem rel_dateCreated (a b : Article) :
    (lessOf .dateCreated b a = false) ↔ b.Created ≤ a.Created := by
  simp [lessOf, decide_eq_false_iff_not]

/-- The comparator relation used by `rssSort` reflects descending
creation instants. -/
theorem rel_rss (a b : Article) :
    (goCompare b.Created a.Created ≤ 0) ↔ b.Created ≤ a.Created := by
  unfold goCompare
  split <;> rename_i h1
  · omega
  · split <;> rename_i h2 <;> omega

/-- `rssSort` permutes its input. -/
theorem rssSort_perm (l : List Article) : (rssSort l).Perm l :=
  List.perm_insertionSort _ l

/-- `rssSort` output is descending in `Created`. -/
theorem rssSort_sorted (l : List Article) :
    (rssSort l).Pairwise (fun a b => b.Created ≤ a.Created) := by
  have ht : IsTotal Article (fun a b => goCompare b.Created a.Created ≤ 0) := by
    constructor; intro a b; simp only [rel_rss]; omega
  have htr : IsTrans Article (fun a b => goCompare b.Created a.Created ≤ 0) := by
    constructor; intro a b c; simp only [rel_rss]; omega
  have hs := List.sorted_insertionSort (r := fun a b => goCompare b.Created a.Created ≤ 0) l
  exact hs.imp (fun h => (rel_rss _ _).mp h)

/-- `sortArticles` permutes its input. -/
theorem sortArticles_perm (s : SortOrder) (l : List Article) :
    (sortArticles s l).Perm l :=
  List.perm_insertionSort _ l

/-- C2: with three articles of strictly increasing creation dates
D1 < D2 < D3 (in any initial arrangement of the collection), sort order
`reverse-date-created` sorts the collection into [D1, D2, D3] and
`date-created` into [D3, D2, D1]. -/
theorem sortOrder_dateCreated_spec (a1 a2 a3 : Article) (l : List Article)
    (h12 : a1.Created < a2.Created) (h23 : a2.Created < a3.Created)
    (hl : l.Perm [a1, a2, a3]) :
    sortArticles .reverseDateCreated l = [a1, a2, a3] ∧
    sortArticles .dateCreated l = [a3, a2, a1] := by
  constructor
  · have ht : IsTotal Article (fun a b => lessOf .reverseDateCreated b a = false) := by
      constructor; intro a b; simp only [rel_reverseDateCreated]; omega
    have htr : IsTrans Article (fun a b => lessOf .reverseDateCreated b a = false) := by
      constructor; intro a b c; simp only [rel_reverseDateCreated]; omega
    have hs := List.sorted_insertionSort (r := fun a b => lessOf .reverseDateCreated b a = false) l
    have hp := (List.perm_insertionSort
      (r := fun a b => lessOf .reverseDateCreated b a = false) l).trans hl
    exact sorted_perm3_eq (fun a => a.Created) rel_reverseDateCreated h12 h23 hp hs
  · have ht : IsTotal Article (fun a b => lessOf .dateCreated b a = false) := by
      constructor; intro a b; simp only [rel_dateCreated]; omega
    have htr : IsTrans Article (fun a b => lessOf .dateCreated b a = false) := by
      constructor; intro a b c; simp only [rel_dateCreated]; omega
    have hs := List.sorted_insertionSort (r := fun a b => lessOf .dateCreated b a = false) l
    have hp := (List.perm_insertionSort
      (r := fun a b => lessOf .dateCreated b a = false) l).trans hl
    have hl3 : l.Perm [a3, a2, a1] := hl.trans (by
      simpa using List.reverse_perm [a3, a2, a1])
    have hp3 := (List.perm_insertionSort
      (r := fun a b => lessOf .dateCreated b a = false) l).trans hl3
    have hneg : ∀ a b : Article, (lessOf .dateCreated b a = false) ↔ (-a.Created) ≤ (-b.Created) := by
      intro a b; rw [rel_dateCreated]; omega
    exact sorted_perm3_eq (fun a => -a.Created) hneg
      (by show -a3.Created < -a2.Created; omega)
      (by show -a2.Created < -a1.Created; omega) hp3 hs

/-- Witness for `sortOrder_dateCreated_spec` at a concrete collection. -/
theorem sortOrder_dateCreated_spec_witness :
    sortArticles .reverseDateCreated
        [({ Created := 2 } : Article), { Created := 3 }, { Created := 1 }] =
      [({ Created := 1 } : Article), { Created := 2 }, { Created := 3 }] ∧
    sortArticles .dateCreated
        [({ Created := 2 } : Article), { Created := 3 }, { Created := 1 }] =
      [({ Created := 3 } : Article), { Created := 2 }, { Created := 1 }] :=
  sortOrder_dateCreated_spec { Created := 1 } { Created := 2 } { Created := 3 }
    [{ Created := 2 }, { Created := 3 }, { Created := 1 }]
    (by decide) (by decide) (by decide)

/-- C9: `GenerateRSS` serializes the collection most-recent-first by
creation date: whatever `SortOrder` the index was sorted with, the list
of feed items is a permutation of the built articles that is descending
in `Created`. -/
theorem rss_sorted_desc : ∀ (s : SortOrder) (l : List Article),
    (rssSort (sortArticles s l)).Pairwise (fun a b => b.Created ≤ a.Created) ∧
    (rssSort (sortArticles s l)).Perm l := by
  intro s l
  exact ⟨rssSort_sorted _, (rssSort_perm _).trans (sortArticles_perm s l)⟩

/-- C10: `GenerateRSS` sorts the shared slice in place, so after the RSS
step the orchestrator's collection holds exactly the same articles (every
field unchanged, as a multiset) but ordered descending by `Created` — and
in general no longer in the configured `SortOrder`, as the concrete
title-sorted collection shows. -/
theorem rss_inplace_sort_frame :
    (∀ (s : SortOrder) (l : List Article),
        (articlesAfterRSS s l).Perm (articlesAfterIndex s l) ∧
        (articlesAfterRSS s l).Pairwise (fun a b => b.Created ≤ a.Created)) ∧
    articlesAfterRSS .title [{ Title := "a", Created := 1 }, { Title := "b", Created := 2 }] ≠
      articlesAfterIndex .title [{ Title := "a", Created := 1 }, { Title := "b", Created := 2 }] := by
  constructor
  · intro s l
    exact ⟨rssSort_perm _, rssSort_sorted _⟩
  · decide

/-! ## C1: selective resource filtering -/

/-- A lower-cased string with a non-empty prefix is itself non-empty. -/
theorem ne_empty_of_hasPfx {p s : String} (hp : p ≠ "") (h : hasPfx p (lowerStr s) = true) :
    s ≠ "" := by
  intro e
  rw [e] at h
  rcases p with ⟨pl⟩
  cases pl with
  | nil => exact hp rfl
  | cons c cs => simp [hasPfx, lowerStr, List.isPrefixOf] at h

/-- C1: in the selective resource copy, an absolute external URL
(`http://`, `https://`, `ftp://`, protocol-relative `//`) is never
copied; a reference whose lower-cased trimmed form begins with `#`,
`mailto:`, `tel:`, `sms:` or `www.` is never copied; a reference whose
cleaned path has extension `.md`, `.markdown`, `.html` or `.htm`, or no
extension at all, is never copied; and a plain relative reference with a
non-content extension is copied to the article's output directory under
its cleaned path, query string and fragment stripped and a leading `/`
treated as site-root-relative. -/
theorem selectiveCopy_filtering :
    (∀ ref : String,
      (hasPfx "http://" (lowerStr (goTrimSpace ref)) = true ∨
       hasPfx "https://" (lowerStr (goTrimSpace ref)) = true ∨
       hasPfx "ftp://" (lowerStr (goTrimSpace ref)) = true ∨
       hasPfx "//" (lowerStr (goTrimSpace ref)) = true) →
      copyDecision ref = none) ∧
    (∀ ref : String,
      (hasPfx "#" (lowerStr (goTrimSpace ref)) = true ∨
       hasPfx "mailto:" (lowerStr (goTrimSpace ref)) = true ∨
       hasPfx "tel:" (lowerStr (goTrimSpace ref)) = true ∨
       hasPfx "sms:" (lowerStr (goTrimSpace ref)) = true ∨
       hasPfx "www." (lowerStr (goTrimSpace ref)) = true) →
      copyDecision ref = none) ∧
    (∀ ref p : String, cleanedResourcePath ref = some p →
      (lowerStr (goExt p) = ".md" ∨ lowerStr (goExt p) = ".markdown" ∨
       lowerStr (goExt p) = ".html" ∨ lowerStr (goExt p) = ".htm" ∨
       lowerStr (goExt p) = "") →
      copyDecision ref = none) ∧
    (copyDecision "img/x.png" = some "img/x.png" ∧
     resourceDest "outputDir" "img/x.png" = some "outputDir/img/x.png" ∧
     copyDecision "img/x.png?v=1#f" = some "img/x.png" ∧
     copyDecision "/img/x.png" = some "img/x.png") := by
  refine ⟨?_, ?_, ?_, by decide, by decide, by decide, by decide⟩
  · intro ref h
    have hne : goTrimSpace ref ≠ "" := by
      rcases h with h | h | h | h
      · exact ne_empty_of_hasPfx (by decide) h
      · exact ne_empty_of_hasPfx (by decide) h
      · exact ne_empty_of_hasPfx (by decide) h
      · exact ne_empty_of_hasPfx (by decide) h
    have hcrp : cleanedResourcePath ref = none := by
      unfold cleanedResourcePath
      rcases h with h | h | h | h <;> simp [hne, h]
    simp [copyDecision, hcrp]
  · intro ref h
    have hne : goTrimSpace ref ≠ "" := by
      rcases h with h | h | h | h | h
      · exact ne_empty_of_hasPfx (by decide) h
      · exact ne_empty_of_hasPfx (by decide) h
      · exact ne_empty_of_hasPfx (by decide) h
      · exact ne_empty_of_hasPfx (by decide) h
      · exact ne_empty_of_hasPfx (by decide) h
    have hcrp : cleanedResourcePath ref = none := by
      unfold cleanedResourcePath
      rcases h with h | h | h | h | h <;> simp [hne, h]
    simp [copyDecision, hcrp]
  · intro ref p hp hext
    unfold copyDecision
    rw [hp]
    rcases hext with h | h | h | h | h <;> simp [h]

/-- Witness for `selectiveCopy_filtering` at concrete references. -/
theorem selectiveCopy_filtering_witness :
    copyDecision "https://example.com/x.png" = none ∧
    copyDecision "#section" = none ∧
    copyDecision "about" = none ∧
    copyDecision "post.md" = none :=
  ⟨selectiveCopy_filtering.1 "https://example.com/x.png" (Or.inr (Or.inl (by decide))),
   selectiveCopy_filtering.2.1 "#section" (Or.inl (by decide)),
   selectiveCopy_filtering.2.2.1 "about" "about" (by decide) (Or.inr (Or.inr (Or.inr (Or.inr (by decide))))),
   selectiveCopy_filtering.2.2.1 "post.md" "post.md" (by decide) (Or.inl (by decide))⟩

/-! ## C7: the cover-image step -/

/-- C7 counterexample: the stored cover value after the rewrite is not
relative to the article's own output directory.  For an article written
to `out/posts/p` with cover reference `img/c.png`, the cover file is
copied to `out/posts/p/img/c.png`, but the stored value becomes
`posts/p/img/c.png` (site-root-relative): resolved against the article's
own output directory it does not name the copied file. -/
theorem coverImage_rewrite_counterexample :
    (coverImageStep "content/posts/p" "out/posts/p" "posts/p/index.html" "img/c.png" false).copies
      = [("content/posts/p/img/c.png", "out/posts/p/img/c.png")] ∧
    (coverImageStep "content/posts/p" "out/posts/p" "posts/p/index.html" "img/c.png" false).cover
      ≠ "img/c.png" ∧
    goJoin "out/posts/p"
        (coverImageStep "content/posts/p" "out/posts/p" "posts/p/index.html" "img/c.png" false).cover
      ≠ "out/posts/p/img/c.png" := by
  refine ⟨by decide, by decide, by decide⟩

/-- C7 (amended): for an article with a non-empty cover value whose
lower-cased form does not begin with `"http"` and that was not copied in
whole-directory (`PAGE`) mode, the resolver copies the cover image from
the source directory to the output directory under the original relative
reference, and rewrites the stored value to `filepath.Dir(LinkToSelf)`
joined with that reference — a site-root-relative path (relative to the
output root, not to the article's own output directory). -/
theorem coverImage_rewrite_spec (od outd link cov : String)
    (h1 : cov ≠ "") (h2 : hasPfx "http" (lowerStr cov) = false) :
    coverImageStep od outd link cov false =
      ⟨[(goJoin od cov, goJoin outd cov)], toSlash (goJoin (goDir link) cov)⟩ := by
  unfold coverImageStep
  simp [h1, h2]

/-- Witness for `coverImage_rewrite_spec` at a concrete article. -/
theorem coverImage_rewrite_spec_witness :
    coverImageStep "content/posts/p" "out/posts/p" "posts/p/index.html" "img/c.png" false =
      ⟨[(goJoin "content/posts/p" "img/c.png", goJoin "out/posts/p" "img/c.png")],
        toSlash (goJoin (goDir "posts/p/index.html") "img/c.png")⟩ :=
  coverImage_rewrite_spec "content/posts/p" "out/posts/p" "posts/p/index.html" "img/c.png"
    (by decide) (by decide)

/-! ## C8: `Created <= now` -/

/-- C8 counterexample: a frontmatter `created` date in the future is
stored as-is, so `Created <= now` fails.  With build time (now)
2026-10-12 and a file modified at the epoch, the frontmatter string
`"9999-01-02"` yields a `Created` beyond `now`. -/
theorem created_le_now_counterexample :
    (0 : Int) ≤ goTimeDate 2026 10 12 0 0 0 ∧
    ¬ derivedCreated (some (.str "9999-01-02")) "notes.md" 0 ≤ goTimeDate 2026 10 12 0 0 0 := by
  refine ⟨by decide, by decide⟩

/-- C8 (amended): `Created <= now` is guaranteed only on the
modification-time branch of the fallback chain: when the frontmatter has
no `created` entry and the file path contains no date pattern, `Created`
is exactly the file's modification time, hence at most `now` whenever the
file was last modified no later than the build; dates taken from
metadata or from the path are used as parsed and may lie in the future. -/
theorem created_mtime_fallback_le_now (path : String) (mtime now : Int)
    (hpath : DateTimeFromString path = none) (hm : mtime ≤ now) :
    derivedCreated none path mtime = mtime ∧ derivedCreated none path mtime ≤ now := by
  have he : derivedCreated none path mtime = mtime := by
    unfold derivedCreated
    simp [hpath]
  exact ⟨he, by rw [he]; exact hm⟩

/-- Witness for `created_mtime_fallback_le_now` at a concrete file. -/
theorem created_mtime_fallback_le_now_witness :
    derivedCreated none "posts/notes.md" 5 = 5 ∧ derivedCreated none "posts/notes.md" 5 ≤ 7 :=
  created_mtime_fallback_le_now "posts/notes.md" 5 7 (by decide) (by decide)

/-! ## Generic lemmas about the string helpers -/

/-- Characters are equal iff their code points are. -/
theorem charEq_iff {a b : Char} : a = b ↔ a.toNat = b.toNat := by
  constructor
  · intro h; rw [h]
  · intro h
    exact Char.le_antisymm (Char.le_def.mpr (le_of_eq h)) (Char.le_def.mpr (le_of_eq h.symm))

/-- The character set of the sanitizer's output: ASCII alphanumerics,
slash 47, dot 46, dash 45. -/
def slugOutCh (c : Char) : Bool :=
  (97 ≤ c.toNat && c.toNat ≤ 122) ||
  (65 ≤ c.toNat && c.toNat ≤ 90) ||
  (48 ≤ c.toNat && c.toNat ≤ 57) ||
  c.toNat = 47 || c.toNat = 46 || c.toNat = 45

/-- Modelled from the spec: the character class "A-Z a-z 0-9 slash dash"
that §8 of the spec claims bounds the output of `Slugify` (note that the
dot is absent from it). -/
def claimedSlugCh (c : Char) : Bool :=
  (97 ≤ c.toNat && c.toNat ≤ 122) ||
  (65 ≤ c.toNat && c.toNat ≤ 90) ||
  (48 ≤ c.toNat && c.toNat ≤ 57) ||
  c.toNat = 47 || c.toNat = 45

/-- Characters of `replaceCh t r l` come from `r` or are non-`t`
characters of `l`. -/
theorem mem_replaceCh {t : Char} {r l : List Char} {c : Char}
    (h : c ∈ replaceCh t r l) : c ∈ r ∨ (c ∈ l ∧ c ≠ t) := by
  induction l with
  | nil => simp [replaceCh] at h
  | cons d ds ih =>
    simp only [replaceCh, List.mem_append] at h
    rcases h with h | h
    · by_cases hd : d = t
      · rw [if_pos hd] at h; exact Or.inl h
      · rw [if_neg hd] at h
        simp only [List.mem_singleton] at h
        subst h
        exact Or.inr ⟨List.mem_cons_self _ _, hd⟩
    · rcases ih h with h' | ⟨h1, h2⟩
      · exact Or.inl h'
      · exact Or.inr ⟨List.mem_cons_of_mem _ h1, h2⟩

/-- `replaceCh` is the identity when the target does not occur. -/
theorem replaceCh_eq_self {t : Char} {r l : List Char}
    (h : ∀ c ∈ l, c ≠ t) : replaceCh t r l = l := by
  induction l with
  | nil => rfl
  | cons d ds ih =>
    simp only [replaceCh]
    rw [if_neg (h d (List.mem_cons_self _ _))]
    simp [ih (fun c hc => h c (List.mem_cons_of_mem _ hc))]

/-- Characters of the pieces of `splitOnChAux` are non-separator
characters of the input. -/
theorem splitOnChAux_mem (sep : Char) (l : List Char) :
    (∀ c ∈ (splitOnChAux sep l).1, c ∈ l ∧ c ≠ sep) ∧
    (∀ p ∈ (splitOnChAux sep l).2, ∀ c ∈ p, c ∈ l ∧ c ≠ sep) := by
  induction l with
  | nil => simp [splitOnChAux]
  | cons d ds ih =>
    by_cases hd : d = sep
    · simp only [splitOnChAux, if_pos hd]
      refine ⟨by simp, ?_⟩
      intro p hp c hc
      rcases List.mem_cons.mp hp with hp1 | hp2
      · have := ih.1 c (hp1 ▸ hc)
        exact ⟨List.mem_cons_of_mem _ this.1, this.2⟩
      · have := ih.2 p hp2 c hc
        exact ⟨List.mem_cons_of_mem _ this.1, this.2⟩
    · simp only [splitOnChAux, if_neg hd]
      constructor
      · intro c hc
        rcases List.mem_cons.mp hc with hc1 | hc2
        · exact ⟨hc1 ▸ List.mem_cons_self _ _, hc1 ▸ hd⟩
        · have := ih.1 c hc2
          exact ⟨List.mem_cons_of_mem _ this.1, this.2⟩
      · intro p hp c hc
        have := ih.2 p hp c hc
        exact ⟨List.mem_cons_of_mem _ this.1, this.2⟩

/-- Splitting and rejoining with the separator is the identity. -/
theorem joinWith_splitOnChAux (sep : Char) (l : List Char) :
    joinWith [sep] ((splitOnChAux sep l).1 :: (splitOnChAux sep l).2) = l := by
  induction l with
  | nil => rfl
  | cons d ds ih =>
    by_cases hd : d = sep
    · simp only [splitOnChAux, if_pos hd, joinWith]
      rw [hd]
      simpa using ih
    · simp only [splitOnChAux, if_neg hd]
      cases h2 : (splitOnChAux sep ds).2 with
      | nil =>
        rw [h2] at ih
        simp only [joinWith] at ih ⊢
        rw [ih]
      | cons q qs =>
        rw [h2] at ih
        simp only [joinWith] at ih ⊢
        simpa using ih

/-- `splitOnChAux` of a separator-free list is that list as one piece. -/
theorem splitOnChAux_of_not_mem {sep : Char} {l : List Char}
    (h : ∀ c ∈ l, c ≠ sep) : splitOnChAux sep l = (l, []) := by
  induction l with
  | nil => rfl
  | cons d ds ih =>
    simp only [splitOnChAux, if_neg (h d (List.mem_cons_self _ _))]
    rw [ih (fun c hc => h c (List.mem_cons_of_mem _ hc))]

/-- Membership survives `dropWhile`. -/
theorem mem_of_mem_dropWhile {p : Char → Bool} {l : List Char} {c : Char}
    (h : c ∈ l.dropWhile p) : c ∈ l := by
  induction l with
  | nil => simp at h
  | cons d ds ih =>
    rw [List.dropWhile_cons] at h
    by_cases hd : p d = true
    · simp only [hd, if_true] at h
      exact List.mem_cons_of_mem _ (ih h)
    · simp only [hd, if_false] at h
      exact h

/-- `dropWhile` is the identity when no character matches. -/
theorem dropWhile_eq_self_of {p : Char → Bool} {l : List Char}
    (h : ∀ c ∈ l, p c = false) : l.dropWhile p = l := by
  cases l with
  | nil => rfl
  | cons d ds =>
    rw [List.dropWhile_cons, h d (List.mem_cons_self _ _)]
    simp

/-- `trimBy` is the identity when no character matches the cutset. -/
theorem trimBy_eq_self {p : Char → Bool} {l : List Char}
    (h : ∀ c ∈ l, p c = false) : trimBy p l = l := by
  unfold trimBy
  rw [dropWhile_eq_self_of h,
    dropWhile_eq_self_of (fun c hc => h c (List.mem_reverse.mp hc)),
    List.reverse_reverse]

/-- Membership survives `trimBy`. -/
theorem mem_of_mem_trimBy {p : Char → Bool} {l : List Char} {c : Char}
    (h : c ∈ trimBy p l) : c ∈ l := by
  unfold trimBy at h
  rw [List.mem_reverse] at h
  have h1 := mem_of_mem_dropWhile h
  rw [List.mem_reverse] at h1
  exact mem_of_mem_dropWhile h1

/-- On white-space-free input, `goFieldsAux` yields the single word made
of the accumulator and the input. -/
theorem goFieldsAux_nospace {l : List Char} (h : ∀ c ∈ l, goIsSpace c = false) :
    ∀ acc, goFieldsAux l acc =
      if acc.reverse ++ l = [] then [] else [acc.reverse ++ l] := by
  induction l with
  | nil =>
    intro acc
    cases acc <;> simp [goFieldsAux]
  | cons d ds ih =>
    intro acc
    have hd := h d (List.mem_cons_self _ _)
    simp only [goFieldsAux, hd, Bool.false_eq_true, if_false]
    rw [ih (fun c hc => h c (List.mem_cons_of_mem _ hc)) (d :: acc)]
    simp

/-- `strings.Fields` of a white-space-free string. -/
theorem goFields_nospace {l : List Char} (h : ∀ c ∈ l, goIsSpace c = false) :
    goFields l = if l = [] then [] else [l] := by
  unfold goFields
  rw [goFieldsAux_nospace h []]
  simp

/-- Characters of the words of `goFieldsAux` come from the input or the
accumulator and are not white space. -/
theorem goFieldsAux_mem {l : List Char} :
    ∀ {acc w c}, w ∈ goFieldsAux l acc → c ∈ w →
      (∀ d ∈ acc, goIsSpace d = false) →
      (c ∈ l ∨ c ∈ acc) ∧ goIsSpace c = false := by
  induction l with
  | nil =>
    intro acc w c hw hc hacc
    by_cases ha : acc = []
    · simp [goFieldsAux, ha] at hw
    · simp only [goFieldsAux, if_neg ha, List.mem_singleton] at hw
      subst hw
      rw [List.mem_reverse] at hc
      exact ⟨Or.inr hc, hacc c hc⟩
  | cons d ds ih =>
    intro acc w c hw hc hacc
    by_cases hd : goIsSpace d = true
    · simp only [goFieldsAux, hd, if_true] at hw
      by_cases ha : acc = []
      · rw [if_pos ha] at hw
        have := ih hw hc (by intro e he; simp at he)
        rcases this with ⟨h1 | h1, h2⟩
        · exact ⟨Or.inl (List.mem_cons_of_mem _ h1), h2⟩
        · simp at h1
      · rw [if_neg ha] at hw
        rcases List.mem_cons.mp hw with hw1 | hw2
        · subst hw1
          rw [List.mem_reverse] at hc
          exact ⟨Or.inr hc, hacc c hc⟩
        · have := ih hw2 hc (by intro e he; simp at he)
          rcases this with ⟨h1 | h1, h2⟩
          · exact ⟨Or.inl (List.mem_cons_of_mem _ h1), h2⟩
          · simp at h1
    · rw [Bool.not_eq_true] at hd
      simp only [goFieldsAux, hd, Bool.false_eq_true, if_false] at hw
      have := ih hw hc (by
        intro e he
        rcases List.mem_cons.mp he with he1 | he2
        · exact he1 ▸ hd
        · exact hacc e he2)
      rcases this with ⟨h1 | h1, h2⟩
      · exact ⟨Or.inl (List.mem_cons_of_mem _ h1), h2⟩
      · rcases List.mem_cons.mp h1 with h3 | h3
        · exact ⟨Or.inl (h3 ▸ List.mem_cons_self _ _), h2⟩
        · exact ⟨Or.inr h3, h2⟩

/-- Characters of a join come from the separator or from one of the
pieces. -/
theorem mem_joinWith {sep : List Char} {ps : List (List Char)} {c : Char}
    (h : c ∈ joinWith sep ps) : c ∈ sep ∨ ∃ p ∈ ps, c ∈ p := by
  induction ps with
  | nil => simp [joinWith] at h
  | cons p ps ih =>
    cases ps with
    | nil =>
      simp only [joinWith] at h
      exact Or.inr ⟨p, List.mem_cons_self _ _, h⟩
    | cons q qs =>
      simp only [joinWith, List.append_assoc, List.mem_append] at h
      rcases h with h | h | h
      · exact Or.inr ⟨p, List.mem_cons_self _ _, h⟩
      · exact Or.inl h
      · rcases ih h with h' | ⟨p', hp', hc'⟩
        · exact Or.inl h'
        · exact Or.inr ⟨p', List.mem_cons_of_mem _ hp', hc'⟩

/-! ## Character classes: arithmetic consequences -/

/-- An allowed character other than the space is not white space. -/
theorem allowed_not_space {c : Char} (ha : allowedCh c = true) (h32 : c.toNat ≠ 32) :
    goIsSpace c = false := by
  rw [← Bool.not_eq_true]
  intro hsp
  simp only [allowedCh, Bool.or_eq_true, Bool.and_eq_true, decide_eq_true_eq] at ha
  simp only [goIsSpace, Bool.or_eq_true, Bool.and_eq_true, decide_eq_true_eq] at hsp
  omega

/-- An allowed character that is neither backslash nor space is in the
output character set. -/
theorem allowed_slugOut {c : Char} (ha : allowedCh c = true) (h92 : c.toNat ≠ 92)
    (h32 : c.toNat ≠ 32) : slugOutCh c = true := by
  simp only [allowedCh, Bool.or_eq_true, Bool.and_eq_true, decide_eq_true_eq] at ha
  simp only [slugOutCh, Bool.or_eq_true, Bool.and_eq_true, decide_eq_true_eq]
  omega

/-- Allowed characters are not hash, plus, dash or underscore. -/
theorem allowed_excludes {c : Char} (ha : allowedCh c = true) :
    c.toNat ≠ 35 ∧ c.toNat ≠ 43 ∧ c.toNat ≠ 45 ∧ c.toNat ≠ 95 := by
  simp only [allowedCh, Bool.or_eq_true, Bool.and_eq_true, decide_eq_true_eq] at ha
  omega

/-- The trim cutset misses characters that are not dash, underscore or
space. -/
theorem trimSet_false_of {c : Char} (h45 : c.toNat ≠ 45) (h95 : c.toNat ≠ 95)
    (h32 : c.toNat ≠ 32) : trimSetCh c = false := by
  rw [← Bool.not_eq_true]
  intro hsp
  simp only [trimSetCh, Bool.or_eq_true, decide_eq_true_eq] at hsp
  omega

/-- A character with code point 32 is white space. -/
theorem space_of_toNat_32 {c : Char} (h : c.toNat = 32) : goIsSpace c = true := by
  simp [goIsSpace, h]

/-! ## Character tracing through the sanitizer stages -/

/-- Characters of stage 4 pass the removal regex and are not backslash. -/
theorem slugStage4_mem {u : List Char} {c : Char} (h : c ∈ slugStage4 u) :
    allowedCh c = true ∧ c.toNat ≠ 92 := by
  unfold slugStage4 at h
  rcases List.mem_map.mp h with ⟨d, hd, he⟩
  have hf := List.mem_filter.mp hd
  by_cases hbs : d = '\\'
  · rw [if_pos hbs] at he
    rw [← he]
    exact ⟨by decide, by decide⟩
  · rw [if_neg hbs] at he
    rw [← he]
    refine ⟨hf.2, ?_⟩
    intro hn
    exact hbs (charEq_iff.mpr hn)

/-- Stage 4 introduces no space character. -/
theorem slugStage4_nospace {u : List Char} (h : ∀ c ∈ u, c.toNat ≠ 32) :
    ∀ c ∈ slugStage4 u, c.toNat ≠ 32 := by
  intro c hc
  unfold slugStage4 at hc
  rcases List.mem_map.mp hc with ⟨d, hd, he⟩
  have hf := List.mem_filter.mp hd
  have hdu : d.toNat ≠ 32 := by
    rcases mem_replaceCh hf.1 with hp | ⟨h1, _⟩
    · have hp2 : d ∈ ['p', 'l', 'u', 's'] := hp
      rcases hp2 with _ | ⟨_, _ | ⟨_, _ | ⟨_, _ | ⟨_, h0⟩⟩⟩⟩
      · decide
      · decide
      · decide
      · decide
      · cases h0
    · rcases mem_replaceCh h1 with hs | ⟨h2, _⟩
      · have hs2 : d ∈ ['s', 'h', 'a', 'r', 'p'] := hs
        rcases hs2 with _ | ⟨_, _ | ⟨_, _ | ⟨_, _ | ⟨_, _ | ⟨_, h0⟩⟩⟩⟩⟩
        · decide
        · decide
        · decide
        · decide
        · decide
        · cases h0
      · exact h d h2
  by_cases hbs : d = '\\'
  · rw [if_pos hbs] at he; rw [← he]; decide
  · rw [if_neg hbs] at he; rw [← he]; exact hdu

/-- Characters of stage 5 are stage-4 characters or the slash. -/
theorem slugStage5_mem_src {u : List Char} {c : Char} (h : c ∈ slugStage5 u) :
    c ∈ slugStage4 u ∨ c = '/' := by
  unfold slugStage5 at h
  rcases mem_joinWith h with hsep | ⟨p, hp, hc⟩
  · right; simpa using hsep
  · left
    rcases List.mem_map.mp hp with ⟨p0, hp0, he⟩
    rw [← he] at hc
    have hc0 : c ∈ p0 := mem_of_mem_trimBy hc
    unfold splitOnCh at hp0
    rcases List.mem_cons.mp hp0 with h1 | h2
    · rw [h1] at hc0
      exact ((splitOnChAux_mem '/' _).1 c hc0).1
    · exact ((splitOnChAux_mem '/' _).2 p0 h2 c hc0).1

/-- Characters of stage 5 are allowed and are not backslash. -/
theorem slugStage5_mem {u : List Char} {c : Char} (h : c ∈ slugStage5 u) :
    allowedCh c = true ∧ c.toNat ≠ 92 := by
  rcases slugStage5_mem_src h with h4 | hsl
  · exact slugStage4_mem h4
  · rw [hsl]; exact ⟨by decide, by decide⟩

/-- Stage 5 introduces no space character. -/
theorem slugStage5_nospace {u : List Char} (h : ∀ c ∈ u, c.toNat ≠ 32) :
    ∀ c ∈ slugStage5 u, c.toNat ≠ 32 := by
  intro c hc
  rcases slugStage5_mem_src hc with h4 | hsl
  · exact slugStage4_nospace h c h4
  · rw [hsl]; decide

/-- Mapping a pointwise-identity function is the identity. -/
theorem map_eq_self_of {α : Type _} {f : α → α} {l : List α}
    (h : ∀ c ∈ l, f c = c) : l.map f = l := by
  induction l with
  | nil => rfl
  | cons d ds ih =>
    simp only [List.map_cons]
    rw [h d (List.mem_cons_self _ _), ih (fun c hc => h c (List.mem_cons_of_mem _ hc))]

/-- On space-free input the `Fields`/dash-join/dash-trim stages of the
sanitizer are the identity, so `cleanString` collapses to stage 5. -/
theorem cleanStringL_nospace_eq {u : List Char} (h : ∀ c ∈ u, c.toNat ≠ 32) :
    cleanStringL u = slugStage5 u := by
  have h5 : ∀ c ∈ slugStage5 u, goIsSpace c = false := by
    intro c hc
    exact allowed_not_space (slugStage5_mem hc).1 (slugStage5_nospace h c hc)
  unfold cleanStringL
  rw [goFields_nospace h5]
  by_cases h0 : slugStage5 u = []
  · rw [h0]
    simp [joinWith, trimBy]
  · rw [if_neg h0]
    have htr : trimBy trimSetCh (slugStage5 u) = slugStage5 u := by
      apply trimBy_eq_self
      intro c hc
      have hex := allowed_excludes (slugStage5_mem hc).1
      exact trimSet_false_of hex.2.2.1 hex.2.2.2 (slugStage5_nospace h c hc)
    simp only [List.map_cons, List.map_nil, htr, joinWith]
    apply trimBy_eq_self
    intro c hc
    rw [decide_eq_false_iff_not]
    intro e
    rw [charEq_iff] at e
    exact absurd e (allowed_excludes (slugStage5_mem hc).1).2.2.1

/-- Stage 5 is a fixed point of itself on space-free input. -/
theorem slugStage5_fixpoint {u : List Char} (h : ∀ c ∈ u, c.toNat ≠ 32) :
    slugStage5 (slugStage5 u) = slugStage5 u := by
  have hy : ∀ c ∈ slugStage5 u, allowedCh c = true ∧ c.toNat ≠ 92 :=
    fun c hc => slugStage5_mem hc
  have h4 : slugStage4 (slugStage5 u) = slugStage5 u := by
    unfold slugStage4
    have hsharp : ∀ c ∈ slugStage5 u, c ≠ '#' := by
      intro c hc hne
      rw [charEq_iff] at hne
      exact absurd hne (allowed_excludes (hy c hc).1).1
    have hplus : ∀ c ∈ slugStage5 u, c ≠ '+' := by
      intro c hc hne
      rw [charEq_iff] at hne
      exact absurd hne (allowed_excludes (hy c hc).1).2.1
    rw [replaceCh_eq_self hsharp, replaceCh_eq_self hplus,
      List.filter_eq_self.mpr (fun c hc => (hy c hc).1)]
    apply map_eq_self_of
    intro c hc
    rw [if_neg]
    intro e
    rw [charEq_iff] at e
    exact absurd e (hy c hc).2
  have htrim : ∀ p ∈ splitOnCh '/' (slugStage5 u), trimBy trimSetCh p = p := by
    intro p hp
    apply trimBy_eq_self
    intro c hc
    have hcy : c ∈ slugStage5 u := by
      unfold splitOnCh at hp
      rcases List.mem_cons.mp hp with h1 | h2
      · rw [h1] at hc
        exact ((splitOnChAux_mem '/' _).1 c hc).1
      · exact ((splitOnChAux_mem '/' _).2 p h2 c hc).1
    have hex := allowed_excludes (hy c hcy).1
    exact trimSet_false_of hex.2.2.1 hex.2.2.2 (slugStage5_nospace h c hcy)
  calc slugStage5 (slugStage5 u)
      = joinWith ['/'] ((splitOnCh '/' (slugStage4 (slugStage5 u))).map (trimBy trimSetCh)) :=
        rfl
    _ = joinWith ['/'] ((splitOnCh '/' (slugStage5 u)).map (trimBy trimSetCh)) := by rw [h4]
    _ = joinWith ['/'] (splitOnCh '/' (slugStage5 u)) := by rw [map_eq_self_of htrim]
    _ = slugStage5 u := joinWith_splitOnChAux '/' (slugStage5 u)

/-! ## C3: idempotence of the sanitizer -/

/-- C3 counterexample: `Slugify` is not idempotent.  A space becomes a
dash on the first pass (`"a b"` to `"a-b"`), and the removal regex,
whose allowed set does not contain the dash, deletes it on the second
pass (`"a-b"` to `"ab"`). -/
theorem slugify_not_idempotent :
    cleanString (cleanString "a b") ≠ cleanString "a b" := by decide

/-- C3 (amended): `Slugify` is idempotent on every input containing no
space character; in general a second application differs only by deleting
the dashes that the word-joining stage introduced for spaces. -/
theorem slugify_idempotent_on_spaceless (s : String) (h : ∀ c ∈ s.data, c.toNat ≠ 32) :
    cleanString (cleanString s) = cleanString s := by
  show (⟨cleanStringL (cleanStringL s.data)⟩ : String) = ⟨cleanStringL s.data⟩
  rw [cleanStringL_nospace_eq h, cleanStringL_nospace_eq (slugStage5_nospace h),
    slugStage5_fixpoint h]

/-- Witness for `slugify_idempotent_on_spaceless` on a concrete
space-free path. -/
theorem slugify_idempotent_on_spaceless_witness :
    cleanString (cleanString "out\\c++/a_b.md") = cleanString "out\\c++/a_b.md" :=
  slugify_idempotent_on_spaceless "out\\c++/a_b.md" (by decide)

/-! ## C4: the output character set of the sanitizer -/

/-- C4 counterexample: the dot survives `Slugify` (it is in the removal
regex's allowed set), so the output is not confined to the claimed class
"A-Z a-z 0-9 slash dash": `cleanString "a.b" = "a.b"` contains a dot. -/
theorem slugify_output_charset_counterexample :
    cleanString "a.b" = "a.b" ∧
    ¬ (∀ c ∈ (cleanString "a.b").data, claimedSlugCh c = true) := by
  refine ⟨by decide, by decide⟩

/-- C4 (amended): every character of `Slugify`'s output lies in
"A-Z a-z 0-9 slash dot dash" — the spec's class plus the dot, which the
removal regex deliberately preserves (extensions must survive). -/
theorem slugify_output_charset (s : String) :
    ∀ c ∈ (cleanString s).data, slugOutCh c = true := by
  intro c hc
  have hc' : c ∈ cleanStringL s.data := hc
  unfold cleanStringL at hc'
  have h1 := mem_of_mem_trimBy hc'
  rcases mem_joinWith h1 with hsep | ⟨w, hw, hcw⟩
  · have : c = '-' := by simpa using hsep
    rw [this]; decide
  · rcases List.mem_map.mp hw with ⟨w0, hw0, he⟩
    rw [← he] at hcw
    have hw0c : c ∈ w0 := mem_of_mem_trimBy hcw
    have hmm := goFieldsAux_mem (l := slugStage5 s.data) hw0 hw0c
      (by intro d hd; cases hd)
    rcases hmm with ⟨h2 | h2, hns⟩
    · have h32 : c.toNat ≠ 32 := by
        intro e
        rw [space_of_toNat_32 e] at hns
        cases hns
      rcases slugStage5_mem_src h2 with h4 | hsl
      · have ha := slugStage4_mem h4
        exact allowed_slugOut ha.1 ha.2 h32
      · rw [hsl]; decide
    · cases h2

/-- Witness for `slugify_output_charset` at a concrete character of a
concrete output. -/
theorem slugify_output_charset_witness :
    slugOutCh 'a' = true :=
  slugify_output_charset "a" 'a' (by decide)

/-! ## C5 and C6: `DateTimeFromString` -/

/-- C5: `DateTimeFromString` returns the `NoDateFound` error exactly when
none of the three patterns matches anywhere in the input; and on a string
with an HH:MM:SS match but no date match it succeeds with a timestamp
whose date fields are the defaulted zeroes (year 0). -/
theorem dateTimeFromString_error_iff (s : String) :
    (DateTimeFromString s = none ↔
      findDate1 s.data = none ∧ findDate2 s.data = none ∧ findTime s.data = none) ∧
    (∀ h mi se : Nat, findTime s.data = some (h, mi, se) →
      findDate1 s.data = none → findDate2 s.data = none →
      DateTimeFromString s = some (goTimeDate 0 0 0 (h : Int) (mi : Int) (se : Int))) := by
  constructor
  · rcases hf1 : findDate1 s.data with _ | d1 <;>
    rcases hf2 : findDate2 s.data with _ | d2 <;>
    rcases hf3 : findTime s.data with _ | d3 <;>
      simp [DateTimeFromString, groupsOf1, groupsOf2, groupsOf3, hf1, hf2, hf3]
  · intro h mi se hf3 hf1 hf2
    simp [DateTimeFromString, groupsOf1, groupsOf2, groupsOf3, hf1, hf2, hf3, dfGet,
      List.find?]

/-- Witness for `dateTimeFromString_error_iff`: a time-only string. -/
theorem dateTimeFromString_error_iff_witness :
    DateTimeFromString "at 23:59:58" = some (goTimeDate 0 0 0 23 59 58) :=
  (dateTimeFromString_error_iff "at 23:59:58").2 23 59 58 (by decide) (by decide) (by decide)

/-- C6: when several patterns match, the timestamp is built from the
per-field merge in which a later pattern's named groups overwrite an
earlier pattern's: with patterns 1 and 3 both matching, the
year/month/day come from pattern 2 when it also matches (overwriting
pattern 1) and from pattern 1 otherwise, while hour/min/sec always come
from pattern 3 — last match wins per field, not per whole pattern. -/
theorem dateTimeFromString_last_match_wins (s : String) (y1 mo1 d1 h mi se : Nat)
    (hf1 : findDate1 s.data = some (y1, mo1, d1))
    (hf3 : findTime s.data = some (h, mi, se)) :
    DateTimeFromString s =
      some (match findDate2 s.data with
            | some (d2, mo2, y2) =>
              goTimeDate (y2 : Int) (mo2 : Int) (d2 : Int) (h : Int) (mi : Int) (se : Int)
            | none =>
              goTimeDate (y1 : Int) (mo1 : Int) (d1 : Int) (h : Int) (mi : Int) (se : Int)) := by
  rcases hf2 : findDate2 s.data with _ | ⟨d2, mo2, y2⟩ <;>
    simp [DateTimeFromString, groupsOf1, groupsOf2, groupsOf3, hf1, hf2, hf3, dfGet,
      List.find?]

/-- Witness for `dateTimeFromString_last_match_wins`: all three patterns
match `"31-12-1999 23:59:58"`; pattern 1 (leftmost at `"1999 23:59"`)
collects year 1999, month 23, day 59, and pattern 2 overwrites them with
day 31, month 12, year 1999. -/
theorem dateTimeFromString_last_match_wins_witness :
    DateTimeFromString "31-12-1999 23:59:58" =
      some (match findDate2 "31-12-1999 23:59:58".data with
            | some (d2, mo2, y2) =>
              goTimeDate (y2 : Int) (mo2 : Int) (d2 : Int) 23 59 58
            | none => goTimeDate 1999 23 59 23 59 58) :=
  dateTimeFromString_last_match_wins "31-12-1999 23:59:58" 1999 23 59 23 59 58
    (by decide) (by decide)

end DSBG
